import Mathlib

/-!
# Verification of the real-time subscription and price-aggregation core

Shallow embedding of the subscription / reconnection / price-aggregation core
of the DLMM dashboard:

* `RateLimiter` — `src/src/utils/walletSecurity.ts`, class `RateLimiter`
* `WebSocketService` — `src/src/services/websocketService.ts`
  (connection monitoring, reconnection, account subscriptions)
* `PriceService` — `src/src/services/websocketService.ts`
  (price cache, Pyth/Jupiter sources, polling subscriptions)
* `TokenService.getTokenPrices` — `src/src/services/tokenService.ts`
* `validatePrice` — `src/src/utils/walletSecurity.ts`

JavaScript numbers that can fail to be finite (results of `parseFloat`) are
modelled by `JsNum`; timestamps (`Date.now()` values, milliseconds) are
modelled by `Int`.  Network effects are modelled by explicit environments:
each upstream call site takes the outcome of the call as a parameter, and
operations additionally return a log of the upstream requests they issued,
so that "exactly one batch call" style properties are statable.
-/

namespace DLMM

/-! ## JavaScript `Map` as an association list

JS `Map` iterates in insertion order; `set` on an existing key updates the
entry in place, `set` on a new key appends, `delete` removes. -/

def jsMapGet {β : Type} : List (String × β) → String → Option β
  | [], _ => none
  | (k, v) :: t, key => if k = key then some v else jsMapGet t key

def jsMapSet {β : Type} : List (String × β) → String → β → List (String × β)
  | [], key, val => [(key, val)]
  | (k, v) :: t, key, val =>
    if k = key then (key, val) :: t else (k, v) :: jsMapSet t key val

def jsMapDelete {β : Type} : List (String × β) → String → List (String × β)
  | [], _ => []
  | (k, v) :: t, key => if k = key then t else (k, v) :: jsMapDelete t key

theorem jsMapGet_set_self {β : Type} (m : List (String × β)) (k : String) (v : β) :
    jsMapGet (jsMapSet m k v) k = some v := by
  induction m with
  | nil => simp [jsMapGet, jsMapSet]
  | cons h t ih =>
    obtain ⟨k', v'⟩ := h
    by_cases hk : k' = k <;> simp [jsMapGet, jsMapSet, hk, ih]

theorem jsMapGet_set_ne {β : Type} (m : List (String × β)) (k k' : String) (v : β)
    (h : k ≠ k') : jsMapGet (jsMapSet m k v) k' = jsMapGet m k' := by
  induction m with
  | nil => simp [jsMapGet, jsMapSet, h]
  | cons hd t ih =>
    obtain ⟨k₀, v₀⟩ := hd
    by_cases hk : k₀ = k
    · subst hk; simp [jsMapGet, jsMapSet, h]
    · simp only [jsMapSet, if_neg hk, jsMapGet]
      by_cases hk' : k₀ = k' <;> simp [hk', ih]

/-! ## RateLimiter (`src/src/utils/walletSecurity.ts`)

```ts
canMakeCall(): boolean {
  const now = Date.now();
  this.calls = this.calls.filter(callTime => now - callTime < this.timeWindow);
  if (this.calls.length < this.maxCalls) { this.calls.push(now); return true; }
  return false;
}
```
State is the list `calls` of recorded timestamps, in recording order. -/

namespace RateLimiter

/-- One `canMakeCall()` invocation at time `now`: prune, admit iff the pruned
count is below `maxCalls`, record `now` on admission.  Returns the result and
the new `calls` state. -/
def canMakeCall (maxCalls : Nat) (timeWindow : Int) (now : Int) (calls : List Int) :
    Bool × List Int :=
  let pruned := calls.filter (fun c => now - c < timeWindow)
  if pruned.length < maxCalls then (true, pruned ++ [now]) else (false, pruned)

/-- Run a sequence of `canMakeCall()` invocations at the given times, from a
given `calls` state.  Returns the list of admitted times (the invocations that
returned `true`, in order) and the final `calls` state. -/
def run (maxCalls : Nat) (timeWindow : Int) : List Int → List Int → List Int × List Int
  | calls, [] => ([], calls)
  | calls, t :: ts =>
    let s := canMakeCall maxCalls timeWindow t calls
    let r := run maxCalls timeWindow s.2 ts
    (if s.1 then t :: r.1 else r.1, r.2)

/-- Membership of a timestamp in the trailing window of length `w` ending at
`t`, i.e. `t - w < s ∧ s ≤ t`. -/
def inWindow (w t s : Int) : Bool := decide (t - s < w) && decide (s ≤ t)

theorem filter_window_mono (A : List Int) (w last t : Int) (h : last ≤ t) :
    A.filter (fun s => decide (t - s < w)) =
      (A.filter (fun s => decide (last - s < w))).filter
        (fun s => decide (t - s < w)) := by
  rw [List.filter_filter]
  apply List.filter_congr
  intro a _
  by_cases ht : t - a < w
  · have hl : last - a < w := by omega
    simp [ht, hl]
  · simp [ht]

/-- Core invariant of the sliding-window limiter, by induction along the
invocation times.  `A` is the list of previously admitted times, `last` a
lower bound on future invocation times with all of `A` at or before it. -/
theorem run_bounded (m : Nat) (w : Int) (hw : 0 < w) :
    ∀ (times calls A : List Int) (last : Int),
      List.Chain (· ≤ ·) last times →
      (∀ a ∈ A, a ≤ last) →
      (A.filter (fun s => decide (last - s < w))).Sublist calls →
      calls.length ≤ m →
      (∀ t, A.countP (inWindow w t) ≤ m) →
      (∀ t, (A ++ (run m w calls times).1).countP (inWindow w t) ≤ m) ∧
        (run m w calls times).2.length ≤ m := by
  intro times
  induction times with
  | nil =>
    intro calls A last _ _ _ hlen hcount
    refine ⟨fun t => ?_, hlen⟩
    simpa [run] using hcount t
  | cons t ts ih =>
    intro calls A last hchain hA hsub hlen hcount
    obtain ⟨hlt, hchain'⟩ := List.chain_cons.mp hchain
    have hsubT : (A.filter (fun s => decide (t - s < w))).Sublist
        (calls.filter (fun c => decide (t - c < w))) := by
      rw [filter_window_mono A w last t hlt]
      exact List.Sublist.filter _ hsub
    have hprunedlen : (calls.filter (fun c => decide (t - c < w))).length ≤ m :=
      le_trans (List.length_filter_le _ _) hlen
    by_cases hadmit : (calls.filter (fun c => decide (t - c < w))).length < m
    · -- the call at time `t` is admitted
      have hrun : run m w calls (t :: ts) =
          (t :: (run m w (calls.filter (fun c => decide (t - c < w)) ++ [t]) ts).1,
           (run m w (calls.filter (fun c => decide (t - c < w)) ++ [t]) ts).2) := by
        simp [run, canMakeCall, hadmit]
      have hA' : ∀ a ∈ A ++ [t], a ≤ t := by
        intro a ha
        rcases List.mem_append.mp ha with h | h
        · exact le_trans (hA a h) hlt
        · simp at h; omega
      have hsub' : ((A ++ [t]).filter (fun s => decide (t - s < w))).Sublist
          (calls.filter (fun c => decide (t - c < w)) ++ [t]) := by
        rw [List.filter_append]
        have hself : ([t].filter (fun s => decide (t - s < w))) = [t] := by
          simp; omega
        rw [hself]
        exact List.Sublist.append hsubT (List.Sublist.refl _)
      have hlen' : (calls.filter (fun c => decide (t - c < w)) ++ [t]).length ≤ m := by
        simp only [List.length_append, List.length_singleton]
        omega
      have hcount' : ∀ u, (A ++ [t]).countP (inWindow w u) ≤ m := by
        intro u
        by_cases hu : t ≤ u
        · have hmono : ∀ a ∈ A ++ [t], inWindow w u a = true →
              decide (t - a < w) = true := by
            intro a _ hwin
            simp only [inWindow, Bool.and_eq_true, decide_eq_true_eq] at hwin ⊢
            omega
          calc (A ++ [t]).countP (inWindow w u)
              ≤ (A ++ [t]).countP (fun s => decide (t - s < w)) :=
                List.countP_mono_left hmono
            _ = ((A ++ [t]).filter (fun s => decide (t - s < w))).length :=
                List.countP_eq_length_filter _ _
            _ ≤ (calls.filter (fun c => decide (t - c < w)) ++ [t]).length :=
                hsub'.length_le
            _ ≤ m := hlen'
        · have hone : ([t].countP (inWindow w u)) = 0 := by
            simp [inWindow]
            omega
          rw [List.countP_append, hone, Nat.add_zero]
          exact hcount u
      have := ih (calls.filter (fun c => decide (t - c < w)) ++ [t]) (A ++ [t]) t
        hchain' hA' hsub' hlen' hcount'
      rw [hrun]
      refine ⟨fun u => ?_, this.2⟩
      have hassoc : A ++ t ::
          (run m w (calls.filter (fun c => decide (t - c < w)) ++ [t]) ts).1 =
          (A ++ [t]) ++
          (run m w (calls.filter (fun c => decide (t - c < w)) ++ [t]) ts).1 := by
        simp
      rw [hassoc]
      exact this.1 u
    · -- the call at time `t` is rejected
      have hrun : run m w calls (t :: ts) =
          run m w (calls.filter (fun c => decide (t - c < w))) ts := by
        simp [run, canMakeCall, hadmit]
      have hA' : ∀ a ∈ A, a ≤ t := fun a ha => le_trans (hA a ha) hlt
      have := ih (calls.filter (fun c => decide (t - c < w))) A t
        hchain' hA' hsubT hprunedlen hcount
      rw [hrun]
      exact this

/-- C5: for every sequence of `canMakeCall()` invocations at non-decreasing
times, (a) an invocation prunes timestamps outside the trailing window,
admits iff the pruned count is below `maxCalls`, and records `now` on
admission; (b) the number of invocations returning `true` whose timestamps
fall in any trailing window of length `windowMs` never exceeds `maxCalls`;
(c) the retained timestamp list never exceeds `maxCalls` entries. -/
theorem canMakeCall_sliding_window (m : Nat) (w : Int) (times : List Int)
    (hw : 0 < w) (hsorted : times.Chain' (· ≤ ·)) :
    (∀ now calls,
        ((canMakeCall m w now calls).1 = true ↔
          (calls.filter (fun c => decide (now - c < w))).length < m) ∧
        ((canMakeCall m w now calls).1 = true →
          (canMakeCall m w now calls).2 =
            calls.filter (fun c => decide (now - c < w)) ++ [now])) ∧
    (∀ t, ((run m w [] times).1.countP (inWindow w t)) ≤ m) ∧
    (run m w [] times).2.length ≤ m := by
  refine ⟨fun now calls => ?_, ?_⟩
  · constructor
    · simp only [canMakeCall]
      split <;> simp_all
    · intro h
      simp only [canMakeCall] at h ⊢
      split at h <;> simp_all
  · cases times with
    | nil => simp [run]
    | cons t ts =>
      have hchain : List.Chain (· ≤ ·) t (t :: ts) :=
        List.chain_cons.mpr ⟨le_refl t, hsorted⟩
      have := run_bounded m w hw (t :: ts) [] [] t hchain
        (by simp) (by simp) (by simp) (by simp)
      simpa using this

/-- Witness for C5 at `maxCalls = 2`, `windowMs = 10`,
times `[0, 1, 5, 12]`. -/
theorem canMakeCall_sliding_window_witness :
    (0 : Int) < 10 ∧ List.Chain' (· ≤ ·) [(0 : Int), 1, 5, 12] ∧
    ∀ t, ((run 2 10 [] [(0 : Int), 1, 5, 12]).1.countP (inWindow 10 t)) ≤ 2 :=
  ⟨by decide, by norm_num [List.chain'_cons],
    (canMakeCall_sliding_window 2 10 [0, 1, 5, 12] (by decide)
      (by norm_num [List.chain'_cons])).2.1⟩

end RateLimiter

/-! ## WebSocketService (`src/src/services/websocketService.ts`)

State: the `subscriptions` JS `Map` (key = `publicKey.toString()`, value = the
upstream subscription id returned by `connection.onAccountChange`), the
`isConnected` flag and the `reconnectAttempts` counter; `nextCall` generates
fresh upstream subscription ids.  The environment decides whether an
`onAccountChange` call succeeds, as a function of the current
`reconnectAttempts` value (0 outside a reconnection episode, the attempt
number during one) and the key; every emitted event, upstream call,
listener removal and backoff wait is recorded in an event trace. -/

namespace WebSocketService

/-- Observable events of one service run. -/
inductive WSEv where
  | emitConnected
  | emitDisconnected
  | emitReconnected
  | emitReconnectionFailed
  | upstream (key : String) (id : Nat)
  | upstreamFail (key : String)
  | removeListener (id : Nat)
  | wait (ms : Nat)
deriving DecidableEq, Repr

structure WSState where
  subs : List (String × Nat)
  isConnected : Bool
  reconnectAttempts : Nat
  nextCall : Nat
deriving DecidableEq, Repr

/-- Environment: does `connection.onAccountChange` succeed, given the current
`reconnectAttempts` value and the subscribed key? -/
structure WSEnv where
  subOk : Nat → String → Bool

def maxReconnectAttempts : Nat := 5

def reconnectDelay : Nat := 1000

/-- `subscribeToAccount`: calls `connection.onAccountChange`; on success
stores `{id, publicKey, callback, unsubscribe}` in the `subscriptions` map
(no cancellation of any previously stored entry for the same key) and
returns the `unsubscribe` closure, here represented by the pair
`(key, id)` it captures; on upstream failure the error is re-thrown
(`none` result). -/
def subscribeToAccount (env : WSEnv) (st : WSState) (key : String) :
    WSState × Option (String × Nat) × List WSEv :=
  if env.subOk st.reconnectAttempts key then
    let id := st.nextCall
    ({ st with
        subs := jsMapSet st.subs key id
        nextCall := st.nextCall + 1 },
     some (key, id), [WSEv.upstream key id])
  else
    (st, none, [WSEv.upstreamFail key])

/-- Invoking a stored `unsubscribe` closure: calls
`connection.removeAccountChangeListener(subscriptionId)` and deletes the key
from the `subscriptions` map. -/
def invokeUnsubscribe (st : WSState) (h : String × Nat) : WSState × List WSEv :=
  ({ st with subs := jsMapDelete st.subs h.1 }, [WSEv.removeListener h.2])

/-- The `for (const sub of subscriptionsToRestore)` loop of
`handleReconnection`: re-subscribe each snapshotted entry in order; the first
`subscribeToAccount` failure aborts the loop (the thrown error reaches the
surrounding `catch`); returns the state reached, whether the loop completed,
and the events. -/
def resubscribeAll (env : WSEnv) : WSState → List (String × Nat) →
    WSState × Bool × List WSEv
  | st, [] => (st, true, [])
  | st, (key, _) :: rest =>
    match subscribeToAccount env st key with
    | (st', some _, evs) =>
      let r := resubscribeAll env st' rest
      (r.1, r.2.1, evs ++ r.2.2)
    | (st', none, evs) => (st', false, evs)

/-- `handleReconnection`, with explicit fuel for the recursion.  The attempt
guard bounds the recursion depth by `maxReconnectAttempts + 1` calls, so with
fuel `≥ maxReconnectAttempts + 1 - reconnectAttempts` the fuel-exhaustion
branch is unreachable (see `handleReconnectionAux_fuel_irrelevant`). -/
def handleReconnectionAux (env : WSEnv) : Nat → WSState → WSState × List WSEv
  | 0, st => (st, [])
  | fuel + 1, st =>
    if st.reconnectAttempts ≥ maxReconnectAttempts then
      (st, [WSEv.emitReconnectionFailed])
    else
      let st1 := { st with reconnectAttempts := st.reconnectAttempts + 1 }
      let delay := reconnectDelay * 2 ^ (st1.reconnectAttempts - 1)
      let snapshot := st1.subs
      let st2 := { st1 with subs := [] }
      let r := resubscribeAll env st2 snapshot
      if r.2.1 then
        (r.1, WSEv.wait delay :: r.2.2 ++ [WSEv.emitReconnected])
      else
        let rr := handleReconnectionAux env fuel r.1
        (rr.1, WSEv.wait delay :: r.2.2 ++ rr.2)

/-- `handleReconnection`: guard on the attempt counter, increment, back off
`reconnectDelay * 2 ^ (reconnectAttempts - 1)` ms, snapshot and clear the
`subscriptions` map (without invoking the stored unsubscribe closures),
re-subscribe every snapshotted entry, emit `reconnected` on success and
recurse on failure. -/
def handleReconnection (env : WSEnv) (st : WSState) : WSState × List WSEv :=
  handleReconnectionAux env (maxReconnectAttempts + 1) st

/-- One tick of the `setupConnectionMonitoring` interval: probe
`connection.getSlot()`; on success while disconnected set `isConnected`,
reset `reconnectAttempts` and emit `connected`; on failure while connected
clear `isConnected`, emit `disconnected` and hand off to
`handleReconnection`. -/
def probeStep (env : WSEnv) (probeOk : Bool) (st : WSState) :
    WSState × List WSEv :=
  if probeOk then
    if !st.isConnected then
      ({ st with isConnected := true, reconnectAttempts := 0 },
       [WSEv.emitConnected])
    else (st, [])
  else
    if st.isConnected then
      let st1 := { st with isConnected := false }
      let r := handleReconnection env st1
      (r.1, WSEv.emitDisconnected :: r.2)
    else (st, [])

/-- `unsubscribeAll`: invoke every stored unsubscribe closure, then clear the
map. -/
def unsubscribeAll (st : WSState) : WSState × List WSEv :=
  ({ st with subs := [] },
   st.subs.map (fun s => WSEv.removeListener s.2))

/-- The backoff waits recorded in a trace, in order. -/
def waitsOf (evs : List WSEv) : List Nat :=
  evs.filterMap (fun e => match e with | WSEv.wait ms => some ms | _ => none)

/-- Events produced by the network boundary (as opposed to emitted events and
waits). -/
def isNetworkEv : WSEv → Bool
  | WSEv.upstream _ _ => true
  | WSEv.upstreamFail _ => true
  | _ => false

theorem subscribeToAccount_attempts (env : WSEnv) (st : WSState) (key : String) :
    (subscribeToAccount env st key).1.reconnectAttempts = st.reconnectAttempts := by
  simp only [subscribeToAccount]
  split <;> rfl

theorem resubscribeAll_attempts (env : WSEnv) :
    ∀ (l : List (String × Nat)) (st : WSState),
      (resubscribeAll env st l).1.reconnectAttempts = st.reconnectAttempts := by
  intro l
  induction l with
  | nil => intro st; rfl
  | cons hd tl ih =>
    intro st
    obtain ⟨key, id⟩ := hd
    by_cases h : env.subOk st.reconnectAttempts key = true
    · simp [resubscribeAll, subscribeToAccount, h, ih]
    · simp [resubscribeAll, subscribeToAccount, h]

theorem resubscribeAll_network (env : WSEnv) :
    ∀ (l : List (String × Nat)) (st : WSState),
      ∀ e ∈ (resubscribeAll env st l).2.2, isNetworkEv e = true := by
  intro l
  induction l with
  | nil => intro st e he; simp [resubscribeAll] at he
  | cons hd tl ih =>
    intro st e he
    obtain ⟨key, id⟩ := hd
    by_cases h : env.subOk st.reconnectAttempts key = true
    · simp only [resubscribeAll, subscribeToAccount, h, if_pos] at he
      simp only [List.mem_append, List.mem_singleton] at he
      rcases he with he | he
      · subst he; rfl
      · exact ih _ e he
    · simp only [resubscribeAll, subscribeToAccount, h] at he
      simp at he
      subst he; rfl

theorem waitsOf_eq_nil (evs : List WSEv) (h : ∀ e ∈ evs, isNetworkEv e = true) :
    waitsOf evs = [] := by
  induction evs with
  | nil => rfl
  | cons e t ih =>
    have he := h e (List.mem_cons_self e t)
    have ht : ∀ x ∈ t, isNetworkEv x = true :=
      fun x hx => h x (List.mem_cons_of_mem e hx)
    cases e with
    | emitConnected => simp [isNetworkEv] at he
    | emitDisconnected => simp [isNetworkEv] at he
    | emitReconnected => simp [isNetworkEv] at he
    | emitReconnectionFailed => simp [isNetworkEv] at he
    | wait ms => simp [isNetworkEv] at he
    | removeListener i => simp [isNetworkEv] at he
    | upstream k i => simpa [waitsOf] using ih ht
    | upstreamFail k => simpa [waitsOf] using ih ht

theorem count_eq_zero_of_network (evs : List WSEv) (e : WSEv)
    (h : ∀ x ∈ evs, isNetworkEv x = true) (he : isNetworkEv e = false) :
    evs.count e = 0 := by
  rw [List.count_eq_zero]
  intro hmem
  rw [h e hmem] at he
  simp at he

/-- One unfolding of `handleReconnectionAux` below the attempt guard. -/
theorem handleReconnectionAux_succ (env : WSEnv) (fuel : Nat) (st : WSState)
    (h : ¬ st.reconnectAttempts ≥ maxReconnectAttempts) :
    handleReconnectionAux env (fuel + 1) st =
      if (resubscribeAll env
            { st with reconnectAttempts := st.reconnectAttempts + 1, subs := [] }
            st.subs).2.1 then
        ((resubscribeAll env
            { st with reconnectAttempts := st.reconnectAttempts + 1, subs := [] }
            st.subs).1,
         WSEv.wait (reconnectDelay * 2 ^ st.reconnectAttempts) ::
           (resubscribeAll env
              { st with reconnectAttempts := st.reconnectAttempts + 1, subs := [] }
              st.subs).2.2 ++ [WSEv.emitReconnected])
      else
        ((handleReconnectionAux env fuel
            (resubscribeAll env
              { st with reconnectAttempts := st.reconnectAttempts + 1, subs := [] }
              st.subs).1).1,
         WSEv.wait (reconnectDelay * 2 ^ st.reconnectAttempts) ::
           (resubscribeAll env
              { st with reconnectAttempts := st.reconnectAttempts + 1, subs := [] }
              st.subs).2.2 ++
           (handleReconnectionAux env fuel
              (resubscribeAll env
                { st with reconnectAttempts := st.reconnectAttempts + 1, subs := [] }
                st.subs).1).2) := by
  conv_lhs => rw [handleReconnectionAux]
  rw [if_neg h]
  rfl

/-- Backbone of C2: from `reconnectAttempts + n = maxReconnectAttempts`, if a
reconnection episode never emits `reconnected` then it runs exactly `n`
further attempt cycles with waits `reconnectDelay * 2 ^ (attempts + i)` and
emits `reconnection-failed` exactly once. -/
theorem handleReconnectionAux_exhaust (env : WSEnv) :
    ∀ (n : Nat) (st : WSState),
      st.reconnectAttempts + n = maxReconnectAttempts →
      WSEv.emitReconnected ∉ (handleReconnectionAux env (n + 1) st).2 →
      waitsOf (handleReconnectionAux env (n + 1) st).2 =
        (List.range n).map (fun i => reconnectDelay * 2 ^ (st.reconnectAttempts + i)) ∧
      (handleReconnectionAux env (n + 1) st).2.count WSEv.emitReconnectionFailed = 1 := by
  intro n
  induction n with
  | zero =>
    intro st hn _
    have hguard : st.reconnectAttempts ≥ maxReconnectAttempts := by omega
    simp [handleReconnectionAux, hguard, waitsOf]
  | succ n ih =>
    intro st hn hno
    have hguard : ¬ st.reconnectAttempts ≥ maxReconnectAttempts := by
      simp only [maxReconnectAttempts] at hn ⊢
      omega
    rw [handleReconnectionAux_succ env (n + 1) st hguard] at hno ⊢
    set st2 : WSState :=
      { st with reconnectAttempts := st.reconnectAttempts + 1, subs := [] } with hst2
    set r := resubscribeAll env st2 st.subs with hrdef
    have hnet := resubscribeAll_network env st.subs st2
    rw [← hrdef] at hnet
    by_cases hok : r.2.1 = true
    · exfalso
      rw [if_pos hok] at hno
      dsimp only at hno
      exact hno (by simp)
    · rw [if_neg hok] at hno ⊢
      dsimp only at hno ⊢
      have hatt : r.1.reconnectAttempts = st.reconnectAttempts + 1 := by
        rw [hrdef, resubscribeAll_attempts]
    -- here hst2 orientation: st2 defined; resubscribeAll_attempts gives st2.reconnectAttempts
      have hn2 : r.1.reconnectAttempts + n = maxReconnectAttempts := by omega
      have hno2 : WSEv.emitReconnected ∉ (handleReconnectionAux env (n + 1) r.1).2 := by
        intro hmem
        exact hno (by simp [hmem])
      obtain ⟨ihw, ihc⟩ := ih r.1 hn2 hno2
      constructor
      · have hw1 : waitsOf (WSEv.wait (reconnectDelay * 2 ^ st.reconnectAttempts) ::
            r.2.2 ++ (handleReconnectionAux env (n + 1) r.1).2) =
            reconnectDelay * 2 ^ st.reconnectAttempts ::
              (waitsOf r.2.2 ++ waitsOf (handleReconnectionAux env (n + 1) r.1).2) := by
          simp [waitsOf]
        rw [hw1, waitsOf_eq_nil r.2.2 hnet, List.nil_append, ihw,
          List.range_succ_eq_map, List.map_cons, List.map_map]
        congr 1
        apply List.map_congr_left
        intro i _
        simp only [Function.comp_apply, hatt, Nat.succ_eq_add_one]
        ring
      · have h1 : r.2.2.count WSEv.emitReconnectionFailed = 0 :=
          count_eq_zero_of_network r.2.2 _ hnet rfl
        simp [List.count_cons, List.count_append, h1, ihc]

/-- C2: with `maxAttempts = 5` and base delay 1000 ms, a reconnection episode
starting from `reconnectAttempts = 0` in which no attempt cycle succeeds
(i.e. `reconnected` is never emitted) runs exactly 5 attempt cycles whose
waits are `1000, 2000, 4000, 8000, 16000` ms (strictly increasing, the k-th
equal to `1000 * 2 ^ (k-1)`), after which `reconnection-failed` is emitted
exactly once and no further cycle occurs. -/
theorem handleReconnection_backoff (env : WSEnv) (st : WSState)
    (h0 : st.reconnectAttempts = 0)
    (hfail : WSEv.emitReconnected ∉ (handleReconnection env st).2) :
    waitsOf (handleReconnection env st).2 = [1000, 2000, 4000, 8000, 16000] ∧
    List.Chain' (· < ·) (waitsOf (handleReconnection env st).2) ∧
    (handleReconnection env st).2.count WSEv.emitReconnectionFailed = 1 ∧
    (handleReconnection env st).2.count WSEv.emitReconnected = 0 := by
  have h := handleReconnectionAux_exhaust env 5 st
    (by simp [maxReconnectAttempts, h0]) hfail
  have hw : waitsOf (handleReconnection env st).2 = [1000, 2000, 4000, 8000, 16000] := by
    rw [show handleReconnection env st = handleReconnectionAux env (5 + 1) st from rfl,
      h.1, h0]
    rfl
  refine ⟨hw, ?_, h.2, List.count_eq_zero.mpr hfail⟩
  rw [hw]
  norm_num [List.chain'_cons]

/-- Environment for the C2 witness: five keys; in cycle `k` the re-subscribe
of exactly one key fails (a different one each cycle), so every cycle fails
while keeping the registry non-empty until the attempt budget is exhausted. -/
def envC2 : WSEnv :=
  ⟨fun a k => ! decide ((a, k) ∈
    [(1, "e"), (2, "d"), (3, "c"), (4, "b"), (5, "a")])⟩

/-- Initial state for the C2 witness: five registered subscriptions. -/
def stC2 : WSState :=
  ⟨[("a", 0), ("b", 1), ("c", 2), ("d", 3), ("e", 4)], false, 0, 5⟩

/-- Witness for C2: a concrete episode in which every attempt cycle fails. -/
theorem handleReconnection_backoff_witness :
    stC2.reconnectAttempts = 0 ∧
    WSEv.emitReconnected ∉ (handleReconnection envC2 stC2).2 ∧
    waitsOf (handleReconnection envC2 stC2).2 = [1000, 2000, 4000, 8000, 16000] ∧
    (handleReconnection envC2 stC2).2.count WSEv.emitReconnectionFailed = 1 :=
  ⟨rfl, by decide,
    (handleReconnection_backoff envC2 stC2 rfl (by decide)).1,
    (handleReconnection_backoff envC2 stC2 rfl (by decide)).2.2.1⟩

def isRemoveListenerEv : WSEv → Bool
  | WSEv.removeListener _ => true
  | _ => false

def isUpstreamEv : WSEv → Bool
  | WSEv.upstream _ _ => true
  | _ => false

def isUpstreamFor (k : String) : WSEv → Bool
  | WSEv.upstream key _ => decide (key = k)
  | _ => false

/-- Environment in which every upstream subscribe call succeeds. -/
def envOk : WSEnv := ⟨fun _ _ => true⟩

/-- Session with one wallet subscription (`"w"`) and two position
subscriptions (`"p1"`, `"p2"`), connected. -/
def stC1 : WSState := ⟨[("w", 0), ("p1", 1), ("p2", 2)], true, 0, 3⟩

/-- C1 counterexample: in the reconnection scenario (probe failure with a
wallet subscription and two position subscriptions registered, recovery on
the first attempt), the stored cancellation handles — which would log
`removeListener 0/1/2` — are never invoked during teardown:
`handleReconnection` clears the `subscriptions` map without calling the
stored `unsubscribe` closures. -/
theorem reconnection_teardown_claim_false :
    ¬ ((probeStep envOk false stC1).2.count (WSEv.removeListener 0) = 1 ∧
       (probeStep envOk false stC1).2.count (WSEv.removeListener 1) = 1 ∧
       (probeStep envOk false stC1).2.count (WSEv.removeListener 2) = 1) := by
  decide

/-- C1 (amended): in the reconnection scenario, `disconnected` is emitted
exactly once, zero cancellation handles are invoked during teardown (the
registry is cleared without cancelling), exactly one re-subscription is
issued per previously registered key (the same 3 keys, 3 upstream calls
total) and `reconnected` is emitted exactly once.  The stored handles are
invoked (exactly once each) only by `unsubscribeAll`, which is not part of
reconnection teardown. -/
theorem reconnection_teardown_behavior :
    (probeStep envOk false stC1).2.count WSEv.emitDisconnected = 1 ∧
    (probeStep envOk false stC1).2.countP isRemoveListenerEv = 0 ∧
    (probeStep envOk false stC1).2.countP (isUpstreamFor "w") = 1 ∧
    (probeStep envOk false stC1).2.countP (isUpstreamFor "p1") = 1 ∧
    (probeStep envOk false stC1).2.countP (isUpstreamFor "p2") = 1 ∧
    (probeStep envOk false stC1).2.countP isUpstreamEv = 3 ∧
    (probeStep envOk false stC1).2.count WSEv.emitReconnected = 1 ∧
    (unsubscribeAll stC1).2.count (WSEv.removeListener 0) = 1 ∧
    (unsubscribeAll stC1).2.count (WSEv.removeListener 1) = 1 ∧
    (unsubscribeAll stC1).2.count (WSEv.removeListener 2) = 1 ∧
    (unsubscribeAll stC1).1.subs = [] := by
  decide

/-- Session with one subscription, connected, used for C3. -/
def stC3 : WSState := ⟨[("k", 0)], true, 0, 1⟩

/-- C3 counterexample: a reconnection episode that succeeds on attempt 1
emits `reconnected` but leaves `reconnectAttempts = 1`; the success path of
`handleReconnection` does not reset the counter. -/
theorem reconnected_reset_claim_false :
    WSEv.emitReconnected ∈ (probeStep envOk false stC3).2 ∧
    (probeStep envOk false stC3).1.reconnectAttempts ≠ 0 := by
  decide

/-- C3 (amended): emitting `reconnected` does not reset the attempt counter;
the counter is reset to 0 only when the periodic probe next succeeds while
disconnected (together with the `connected` emission).  First conjunct: any
successful probe in the disconnected state resets the counter and emits
`connected`.  Second conjunct: the concrete episode of the counterexample,
followed by one successful probe, ends with the counter at 0. -/
theorem reconnect_counter_reset_on_probe :
    (∀ env st, st.isConnected = false →
      (probeStep env true st).1.reconnectAttempts = 0 ∧
      (probeStep env true st).2 = [WSEv.emitConnected]) ∧
    (WSEv.emitReconnected ∈ (probeStep envOk false stC3).2 ∧
     (probeStep envOk false stC3).1.reconnectAttempts = 1 ∧
     (probeStep envOk true (probeStep envOk false stC3).1).1.reconnectAttempts = 0 ∧
     (probeStep envOk true (probeStep envOk false stC3).1).2 = [WSEv.emitConnected]) := by
  constructor
  · intro env st h
    simp [probeStep, h]
  · decide

/-- Witness for C3's amended theorem at a concrete disconnected state. -/
theorem reconnect_counter_reset_on_probe_witness :
    (WSState.mk [] false 3 0).isConnected = false ∧
    (probeStep envOk true (WSState.mk [] false 3 0)).1.reconnectAttempts = 0 :=
  ⟨rfl, (reconnect_counter_reset_on_probe.1 envOk (WSState.mk [] false 3 0) rfl).1⟩

/-- Fresh connected session with no subscriptions. -/
def stEmpty : WSState := ⟨[], true, 0, 0⟩

/-- C4 counterexample: calling `subscribeToAccount` twice for the same key
`"k"` never invokes the first subscription's cancellation handle (which
would log `removeListener 0`): the second call simply overwrites the map
entry, leaking the first upstream listener. -/
theorem resubscribe_same_key_claim_false :
    (subscribeToAccount envOk (subscribeToAccount envOk stEmpty "k").1 "k").2.2.count
        (WSEv.removeListener 0) = 0 ∧
    ¬ ((subscribeToAccount envOk (subscribeToAccount envOk stEmpty "k").1 "k").2.2.count
        (WSEv.removeListener 0) = 1) := by
  decide

/-- C4 (amended): when `subscribeToAccount` is called for a key that already
has a registered subscription, the registry entry is overwritten with the
new upstream id (so the registry still has one entry per key), but the prior
subscription's cancellation handle is NOT invoked: no
`removeAccountChangeListener` call is issued, and the prior upstream
listener stays live. -/
theorem subscribeToAccount_overwrites_without_cancel (env : WSEnv) (st : WSState)
    (key : String) (id0 : Nat)
    (hok : env.subOk st.reconnectAttempts key = true)
    (hprev : jsMapGet st.subs key = some id0) :
    jsMapGet (subscribeToAccount env st key).1.subs key = some st.nextCall ∧
    ∀ i, WSEv.removeListener i ∉ (subscribeToAccount env st key).2.2 := by
  constructor
  · simp [subscribeToAccount, hok, jsMapGet_set_self]
  · intro i
    simp [subscribeToAccount, hok]

/-- Witness for C4's amended theorem: a second subscribe call for `"k"`. -/
theorem subscribeToAccount_overwrites_without_cancel_witness :
    envOk.subOk (subscribeToAccount envOk stEmpty "k").1.reconnectAttempts "k" = true ∧
    jsMapGet (subscribeToAccount envOk stEmpty "k").1.subs "k" = some 0 ∧
    jsMapGet (subscribeToAccount envOk
      (subscribeToAccount envOk stEmpty "k").1 "k").1.subs "k" = some 1 :=
  ⟨rfl, by decide,
    (subscribeToAccount_overwrites_without_cancel envOk
      (subscribeToAccount envOk stEmpty "k").1 "k" 0 rfl (by decide)).1⟩

end WebSocketService

/-! ## JavaScript numbers at the price boundary

`parseFloat` can return NaN, so the numeric fields of price entries are
modelled by `JsNum`; finite values carry a rational. -/

inductive JsNum where
  | nan
  | val (q : ℚ)
deriving DecidableEq, Repr

def JsNum.isFinite : JsNum → Bool
  | JsNum.nan => false
  | JsNum.val _ => true

def JsNum.nonneg : JsNum → Bool
  | JsNum.nan => false
  | JsNum.val q => decide (0 ≤ q)

/-- JS truthiness of a number: `NaN`, `0` and `-0` are falsy. -/
def jsTruthy : JsNum → Bool
  | JsNum.nan => false
  | JsNum.val q => decide (q ≠ 0)

/-- `x || 0` on an optional JS number (`undefined`, `NaN` and `0` give 0). -/
def jsOrZero : Option JsNum → JsNum
  | some x => if jsTruthy x then x else JsNum.val 0
  | none => JsNum.val 0

/-- `validatePrice` (`src/src/utils/walletSecurity.ts`): throws unless the
price is a finite, non-negative number; returns it otherwise.  The
`typeof price !== 'number'` branch is outside this model (its input here is
already a number). -/
def validatePrice : JsNum → Except String ℚ
  | JsNum.nan => Except.error "Price must be finite"
  | JsNum.val q => if q < 0 then Except.error "Price cannot be negative" else Except.ok q

/-! ## PriceService (`src/src/services/websocketService.ts`)

The environment carries the outcome of `pythClient.getData()` (a product
map or a thrown error) and of the Jupiter `fetch` for a given id list (a
per-mint parsed price — the result of `parseFloat(priceData.price)` — or a
thrown error).  Operations return the issued upstream queries alongside
their result and the updated cache. -/

namespace PriceService

inductive PriceSource where
  | jupiter
  | pyth
  | fallback
deriving DecidableEq, Repr

structure PriceData where
  mint : String
  symbol : String
  price : JsNum
  priceChange24h : JsNum
  volume24h : JsNum
  marketCap : JsNum
  confidence : JsNum
  lastUpdated : Int
  source : PriceSource
deriving DecidableEq, Repr

/-- The `TOKEN_PYTH_MAPPING` table, as mint → symbol. -/
def TOKEN_PYTH_MAPPING (mint : String) : Option String :=
  if mint = "So11111111111111111111111111111111111111112" then some "SOL"
  else if mint = "EPjFWdd5AufqSSqeM2qN1xzybapC8G4wEGGkZwyTDt1v" then some "USDC"
  else if mint = "Es9vMFrzaCERmJfrF4H2FYD4KCoNkY11McCe8BenwNYB" then some "USDT"
  else if mint = "9n4nbM75f5Ui33ZbPYXn59EwSgE8CGsHtAeTH5YFeJ9E" then some "WBTC"
  else if mint = "2FPyTwcZLUg1MDrwsyoP4D6s1tM7hAkHYRjkNb5w6Pxk" then some "WETH"
  else none

/-- A Pyth product price record: `price` and `confidence` may be absent. -/
structure PythProduct where
  price : Option JsNum
  confidence : Option JsNum

structure PriceEnv where
  pythData : Except Unit (String → Option PythProduct)
  jupiter : List String → Except Unit (String → Option JsNum)

/-- Upstream queries issued by the price path. -/
inductive PQuery where
  | pyth
  | jup (ids : List String)
deriving DecidableEq, Repr

def cacheExpiry : Int := 30000

/-- `getPythPrice`: `null` unless the client is initialized and the mint is
in the mapping; fetches the product table (`catch` gives `null`), requires a
truthy `priceData.price`, and builds a `pyth`-sourced entry with
`confidence || 0`. -/
def getPythPrice (env : PriceEnv) (isInitialized : Bool) (now : Int) (mint : String) :
    Option PriceData :=
  if !isInitialized then none
  else
    match TOKEN_PYTH_MAPPING mint with
    | none => none
    | some sym =>
      match env.pythData with
      | Except.error _ => none
      | Except.ok products =>
        match products sym with
        | none => none
        | some pd =>
          match pd.price with
          | none => none
          | some p =>
            if jsTruthy p then
              some ⟨mint, sym, p, JsNum.val 0, JsNum.val 0, JsNum.val 0,
                jsOrZero pd.confidence, now, PriceSource.pyth⟩
            else none

/-- The upstream queries `getPythPrice` issues (the `getData` HTTP call is
made only when the client is initialized and the mint is mapped). -/
def pythQueries (isInitialized : Bool) (mint : String) : List PQuery :=
  if isInitialized && (TOKEN_PYTH_MAPPING mint).isSome then [PQuery.pyth] else []

/-- `getJupiterPrice`: one fetch for `[mint]`; `catch` gives `null`; builds a
`jupiter`-sourced entry whose `price` is the `parseFloat` result, stored
without validation. -/
def getJupiterPrice (env : PriceEnv) (now : Int) (mint : String) : Option PriceData :=
  match env.jupiter [mint] with
  | Except.error _ => none
  | Except.ok data =>
    match data mint with
    | none => none
    | some p =>
      some ⟨mint, (TOKEN_PYTH_MAPPING mint).getD "UNKNOWN", p, JsNum.val 0,
        JsNum.val 0, JsNum.val 0, JsNum.val 1, now, PriceSource.jupiter⟩

/-- The cache lookup of `getPrice`/`getPrices`: the entry, provided it is
younger than `cacheExpiry`. -/
def freshCached (now : Int) (cache : List (String × PriceData)) (mint : String) :
    Option PriceData :=
  match jsMapGet cache mint with
  | some c => if now - c.lastUpdated < cacheExpiry then some c else none
  | none => none

/-- `getPrice`: fresh cache hit, else Pyth, else Jupiter, else `null`;
the first success is cached.  Returns result, new cache, issued queries. -/
def getPrice (env : PriceEnv) (isInitialized : Bool) (now : Int) (mint : String)
    (cache : List (String × PriceData)) :
    Option PriceData × List (String × PriceData) × List PQuery :=
  match freshCached now cache mint with
  | some c => (some c, cache, [])
  | none =>
    match getPythPrice env isInitialized now mint with
    | some p => (some p, jsMapSet cache mint p, pythQueries isInitialized mint)
    | none =>
      match getJupiterPrice env now mint with
      | some j => (some j, jsMapSet cache mint j,
          pythQueries isInitialized mint ++ [PQuery.jup [mint]])
      | none => (none, cache, pythQueries isInitialized mint ++ [PQuery.jup [mint]])

/-- `getJupiterPrices`: one fetch for the whole id list; `catch` gives an
empty map; entries are built for exactly the requested mints present in the
response, in request order. -/
def getJupiterPrices (env : PriceEnv) (now : Int) (mints : List String) :
    List (String × PriceData) :=
  match env.jupiter mints with
  | Except.error _ => []
  | Except.ok data =>
    mints.filterMap (fun m => (data m).map (fun p =>
      (m, (⟨m, (TOKEN_PYTH_MAPPING m).getD "UNKNOWN", p, JsNum.val 0, JsNum.val 0,
        JsNum.val 0, JsNum.val 1, now, PriceSource.jupiter⟩ : PriceData))))

/-- The cache-check loop of `getPrices`: fresh entries (in input order) and
the uncached mints (in input order). -/
def partitionCached (now : Int) (cache : List (String × PriceData)) :
    List String → List (String × PriceData) × List String
  | [] => ([], [])
  | m :: ms =>
    let r := partitionCached now cache ms
    match freshCached now cache m with
    | some c => ((m, c) :: r.1, r.2)
    | none => (r.1, m :: r.2)

/-- `Map.set` for every entry in order. -/
def setAll (cache : List (String × PriceData))
    (entries : List (String × PriceData)) : List (String × PriceData) :=
  entries.foldl (fun c e => jsMapSet c e.1 e.2) cache

/-- `getPrices`: serve fresh entries from cache; if none are missing return
immediately with no upstream call, else make one Jupiter batch call for
exactly the uncached mints, merging its results into the returned map and
the cache.  Returns result map, new cache, issued queries. -/
def getPrices (env : PriceEnv) (now : Int) (mints : List String)
    (cache : List (String × PriceData)) :
    List (String × PriceData) × List (String × PriceData) × List PQuery :=
  let part := partitionCached now cache mints
  if part.2.isEmpty then (part.1, cache, [])
  else
    let fetched := getJupiterPrices env now part.2
    (setAll part.1 fetched, setAll cache fetched, [PQuery.jup part.2])

theorem freshCached_inv (now : Int) (cache : List (String × PriceData))
    (mint : String) (c : PriceData) (h : freshCached now cache mint = some c) :
    jsMapGet cache mint = some c ∧ now - c.lastUpdated < cacheExpiry := by
  simp only [freshCached] at h
  split at h
  · rename_i c0 hc0
    split at h
    · rw [Option.some_inj] at h
      subst h
      exact ⟨hc0, by assumption⟩
    · exact absurd h (by simp)
  · exact absurd h (by simp)

theorem getPythPrice_inv (env : PriceEnv) (isInit : Bool) (now : Int) (mint : String)
    (p : PriceData) (h : getPythPrice env isInit now mint = some p) :
    p.source = PriceSource.pyth ∧ p.lastUpdated = now := by
  simp only [getPythPrice] at h
  split at h
  · exact absurd h (by simp)
  · split at h
    · exact absurd h (by simp)
    · split at h
      · exact absurd h (by simp)
      · split at h
        · exact absurd h (by simp)
        · split at h
          · exact absurd h (by simp)
          · split at h
            · rw [Option.some_inj] at h
              subst h
              exact ⟨rfl, rfl⟩
            · exact absurd h (by simp)

theorem getJupiterPrice_inv (env : PriceEnv) (now : Int) (mint : String)
    (j : PriceData) (h : getJupiterPrice env now mint = some j) :
    j.source = PriceSource.jupiter ∧ j.lastUpdated = now ∧
    ∃ data, env.jupiter [mint] = Except.ok data ∧ data mint = some j.price := by
  simp only [getJupiterPrice] at h
  split at h
  · exact absurd h (by simp)
  · rename_i data hdata
    split at h
    · exact absurd h (by simp)
    · rename_i p hp
      rw [Option.some_inj] at h
      subst h
      exact ⟨rfl, rfl, data, hdata, hp⟩

/-- C6: `getPrice` returns a young-enough cached entry as is (no upstream
query); on a miss it tries Pyth then Jupiter, caches and returns the first
success (a Jupiter answer yields a `jupiter`-sourced entry); if both fail it
returns `null` and leaves the cache unchanged; and after any successful
`getPrice`, a later `getPrice` within the expiry window returns the same
entry from cache with no upstream query, whatever the sources then do. -/
theorem getPrice_priority_and_cache (env : PriceEnv) (isInit : Bool) (now : Int)
    (mint : String) (cache : List (String × PriceData)) :
    (∀ c, jsMapGet cache mint = some c → now - c.lastUpdated < cacheExpiry →
      getPrice env isInit now mint cache = (some c, cache, [])) ∧
    (∀ p, freshCached now cache mint = none →
      getPythPrice env isInit now mint = some p →
      getPrice env isInit now mint cache =
        (some p, jsMapSet cache mint p, pythQueries isInit mint) ∧
      p.source = PriceSource.pyth) ∧
    (∀ j, freshCached now cache mint = none →
      getPythPrice env isInit now mint = none →
      getJupiterPrice env now mint = some j →
      getPrice env isInit now mint cache =
        (some j, jsMapSet cache mint j,
          pythQueries isInit mint ++ [PQuery.jup [mint]]) ∧
      j.source = PriceSource.jupiter) ∧
    (freshCached now cache mint = none →
      getPythPrice env isInit now mint = none →
      getJupiterPrice env now mint = none →
      getPrice env isInit now mint cache =
        (none, cache, pythQueries isInit mint ++ [PQuery.jup [mint]])) ∧
    (∀ p cache2 qs now2 env2 isInit2,
      getPrice env isInit now mint cache = (some p, cache2, qs) →
      now2 - p.lastUpdated < cacheExpiry →
      getPrice env2 isInit2 now2 mint cache2 = (some p, cache2, [])) := by
  refine ⟨?_, ?_, ?_, ?_, ?_⟩
  · intro c hc hfresh
    have hf : freshCached now cache mint = some c := by
      simp [freshCached, hc, hfresh]
    simp [getPrice, hf]
  · intro p hmiss hpyth
    exact ⟨by simp [getPrice, hmiss, hpyth], (getPythPrice_inv env isInit now mint p hpyth).1⟩
  · intro j hmiss hpyth hjup
    exact ⟨by simp [getPrice, hmiss, hpyth, hjup],
      (getJupiterPrice_inv env now mint j hjup).1⟩
  · intro hmiss hpyth hjup
    simp [getPrice, hmiss, hpyth, hjup]
  · intro p cache2 qs now2 env2 isInit2 hres hfresh2
    have hget2 : jsMapGet cache2 mint = some p := by
      rcases hfc : freshCached now cache mint with _ | c
      · rcases hp : getPythPrice env isInit now mint with _ | pv
        · rcases hj : getJupiterPrice env now mint with _ | jv
          · simp [getPrice, hfc, hp, hj] at hres
          · simp [getPrice, hfc, hp, hj] at hres
            obtain ⟨h1, h2, _⟩ := hres
            subst h1; subst h2
            exact jsMapGet_set_self _ _ _
        · simp [getPrice, hfc, hp] at hres
          obtain ⟨h1, h2, _⟩ := hres
          subst h1; subst h2
          exact jsMapGet_set_self _ _ _
      · simp [getPrice, hfc] at hres
        obtain ⟨h1, h2, _⟩ := hres
        subst h2
        rw [← h1]
        exact (freshCached_inv now cache mint c hfc).1
    have hf2 : freshCached now2 cache2 mint = some p := by
      simp [freshCached, hget2, hfresh2]
    simp [getPrice, hf2]

/-- Witness environment for C6 (end-to-end scenario 2): Pyth times out
(`getData` throws), Jupiter answers 150.25 for SOL. -/
def envC6 : PriceEnv :=
  ⟨Except.error (),
   fun _ => Except.ok (fun m =>
     if m = "So11111111111111111111111111111111111111112" then
       some (JsNum.val (601 / 4)) else none)⟩

/-- Witness for C6: on an empty cache, `getPrice` for SOL falls back to
Jupiter, returns the 150.25 `jupiter`-sourced entry, caches it, and a second
`getPrice` 10 s later serves it from cache with no query. -/
theorem getPrice_priority_and_cache_witness :
    (freshCached 100000 []
        "So11111111111111111111111111111111111111112" = none) ∧
    (getPythPrice envC6 true 100000
        "So11111111111111111111111111111111111111112" = none) ∧
    ((getPrice envC6 true 100000
        "So11111111111111111111111111111111111111112" []).1.map
        PriceData.price = some (JsNum.val (601 / 4))) ∧
    ((getPrice envC6 true 100000
        "So11111111111111111111111111111111111111112" []).1.map
        PriceData.source = some PriceSource.jupiter) ∧
    (∀ p cache2 qs,
      getPrice envC6 true 100000
        "So11111111111111111111111111111111111111112" [] = (some p, cache2, qs) →
      110000 - p.lastUpdated < cacheExpiry →
      getPrice envC6 true 110000
        "So11111111111111111111111111111111111111112" cache2 = (some p, cache2, [])) :=
  ⟨rfl, rfl, rfl, rfl,
    fun p cache2 qs hres hfr =>
      (getPrice_priority_and_cache envC6 true 100000
        "So11111111111111111111111111111111111111112" []).2.2.2.2
        p cache2 qs 110000 envC6 true hres hfr⟩

end PriceService

namespace PriceService

theorem jsMapGet_setAll_not_mem (c l : List (String × PriceData)) (k : String)
    (h : ∀ e ∈ l, e.1 ≠ k) :
    jsMapGet (setAll c l) k = jsMapGet c k := by
  induction l generalizing c with
  | nil => rfl
  | cons e t ih =>
    simp only [setAll, List.foldl_cons]
    rw [show List.foldl (fun c e => jsMapSet c e.1 e.2) (jsMapSet c e.1 e.2) t =
      setAll (jsMapSet c e.1 e.2) t from rfl]
    rw [ih (jsMapSet c e.1 e.2) (fun x hx => h x (List.mem_cons_of_mem e hx))]
    exact jsMapGet_set_ne c e.1 k e.2 (h e (List.mem_cons_self e t))

theorem jsMapGet_setAll_mem (k : String) (v : PriceData) :
    ∀ (l c : List (String × PriceData)),
      (k, v) ∈ l →
      (∀ p ∈ l, p.1 = k → p.2 = v) →
      jsMapGet (setAll c l) k = some v := by
  intro l
  induction l with
  | nil => intro c hmem _; cases hmem
  | cons e t ih =>
    intro c hmem huniq
    obtain ⟨ek, ev⟩ := e
    simp only [setAll, List.foldl_cons]
    rw [show List.foldl (fun c e => jsMapSet c e.1 e.2) (jsMapSet c ek ev) t =
      setAll (jsMapSet c ek ev) t from rfl]
    by_cases ht : (k, v) ∈ t
    · exact ih (jsMapSet c ek ev) ht (fun p hp => huniq p (List.mem_cons_of_mem _ hp))
    · have hek : ek = k ∧ ev = v := by
        rcases List.mem_cons.mp hmem with h | h
        · exact ⟨(congrArg Prod.fst h).symm, (congrArg Prod.snd h).symm⟩
        · exact absurd h ht
      have hnk : ∀ p ∈ t, p.1 ≠ k := by
        intro p hp hpk
        have hpv : p.2 = v := huniq p (List.mem_cons_of_mem _ hp) hpk
        apply ht
        have hpe : p = (k, v) := Prod.ext hpk hpv
        exact hpe ▸ hp
      rw [jsMapGet_setAll_not_mem _ _ _ hnk, hek.1, hek.2]
      exact jsMapGet_set_self c k v

theorem partitionCached_snd (now : Int) (cache : List (String × PriceData)) :
    ∀ mints : List String,
      (partitionCached now cache mints).2 =
        mints.filter (fun m => (freshCached now cache m).isNone) := by
  intro mints
  induction mints with
  | nil => rfl
  | cons m0 ms ih =>
    simp only [partitionCached, List.filter_cons]
    cases hf : freshCached now cache m0 <;> simp [hf, ih]

theorem partitionCached_fst_get (now : Int) (cache : List (String × PriceData)) :
    ∀ (mints : List String) (m : String),
      jsMapGet (partitionCached now cache mints).1 m =
        if m ∈ mints then freshCached now cache m else none := by
  intro mints
  induction mints with
  | nil => intro m; simp [partitionCached, jsMapGet]
  | cons m0 ms ih =>
    intro m
    simp only [partitionCached]
    cases hf : freshCached now cache m0 with
    | some c =>
      dsimp only
      by_cases hm : m0 = m
      · subst hm
        simp [jsMapGet, hf]
      · rw [show jsMapGet ((m0, c) :: (partitionCached now cache ms).1) m =
          jsMapGet (partitionCached now cache ms).1 m by simp [jsMapGet, hm]]
        rw [ih m]
        by_cases hmem : m ∈ ms
        · rw [if_pos hmem, if_pos (List.mem_cons_of_mem _ hmem)]
        · have hn : ¬ m ∈ m0 :: ms := by
            rw [List.mem_cons]
            rintro (h | h)
            · exact hm h.symm
            · exact hmem h
          rw [if_neg hmem, if_neg hn]
    | none =>
      dsimp only
      rw [ih m]
      by_cases hm : m0 = m
      · subst hm
        by_cases hmem : m0 ∈ ms
        · rw [if_pos hmem, if_pos (List.mem_cons_self _ _)]
        · rw [if_neg hmem, if_pos (List.mem_cons_self _ _), hf]
      · by_cases hmem : m ∈ ms
        · rw [if_pos hmem, if_pos (List.mem_cons_of_mem _ hmem)]
        · have hn : ¬ m ∈ m0 :: ms := by
            rw [List.mem_cons]
            rintro (h | h)
            · exact hm h.symm
            · exact hmem h
          rw [if_neg hmem, if_neg hn]

theorem getJupiterPrices_mem_keys (env : PriceEnv) (now : Int) (l : List String)
    (m : String) (p : PriceData) (h : (m, p) ∈ getJupiterPrices env now l) :
    m ∈ l := by
  simp only [getJupiterPrices] at h
  split at h
  · simp at h
  · rw [List.mem_filterMap] at h
    obtain ⟨a, ha, hfa⟩ := h
    rename_i data hdata
    cases hda : data a with
    | none => rw [hda] at hfa; simp at hfa
    | some v =>
      rw [hda] at hfa
      simp only [Option.map_some', Option.some_inj, Prod.mk.injEq] at hfa
      exact hfa.1 ▸ ha

theorem getJupiterPrices_value_unique (env : PriceEnv) (now : Int)
    (l : List String) (m : String) (p p' : PriceData)
    (h1 : (m, p) ∈ getJupiterPrices env now l)
    (h2 : (m, p') ∈ getJupiterPrices env now l) : p = p' := by
  cases hd : env.jupiter l with
  | error e =>
    simp only [getJupiterPrices, hd] at h1
    simp at h1
  | ok data =>
    simp only [getJupiterPrices, hd] at h1 h2
    rw [List.mem_filterMap] at h1 h2
    obtain ⟨a1, _, hf1⟩ := h1
    obtain ⟨a2, _, hf2⟩ := h2
    cases hda1 : data a1 with
    | none => rw [hda1] at hf1; simp at hf1
    | some v1 =>
      rw [hda1] at hf1
      simp only [Option.map_some', Option.some_inj, Prod.mk.injEq] at hf1
      cases hda2 : data a2 with
      | none => rw [hda2] at hf2; simp at hf2
      | some v2 =>
        rw [hda2] at hf2
        simp only [Option.map_some', Option.some_inj, Prod.mk.injEq] at hf2
        obtain ⟨rfl, rfl⟩ := hf1
        obtain ⟨rfl, rfl⟩ := hf2
        rw [hda1] at hda2
        rw [Option.some_inj] at hda2
        rw [hda2]

theorem getPrices_eq_pos (env : PriceEnv) (now : Int) (mints : List String)
    (cache : List (String × PriceData))
    (h : (partitionCached now cache mints).2.isEmpty = true) :
    getPrices env now mints cache = ((partitionCached now cache mints).1, cache, []) := by
  simp only [getPrices]
  rw [if_pos h]

theorem getPrices_eq_neg (env : PriceEnv) (now : Int) (mints : List String)
    (cache : List (String × PriceData))
    (h : (partitionCached now cache mints).2.isEmpty = false) :
    getPrices env now mints cache =
      (setAll (partitionCached now cache mints).1
        (getJupiterPrices env now (partitionCached now cache mints).2),
       setAll cache (getJupiterPrices env now (partitionCached now cache mints).2),
       [PQuery.jup (partitionCached now cache mints).2]) := by
  simp only [getPrices]
  rw [if_neg (by simp [h])]

/-- C8: `getPrices` (a) partitions the ids into cached-and-fresh versus
uncached (the uncached list is exactly the ids without a fresh entry);
(b) issues no upstream call when nothing is uncached and exactly one batch
call scoped to the uncached ids otherwise; (c) serves fresh ids from the
cache; (d) returns every fetched entry and merges it into the cache;
(e) silently omits ids that are neither fresh nor resolved by the batch. -/
theorem getPrices_batching (env : PriceEnv) (now : Int) (mints : List String)
    (cache : List (String × PriceData)) :
    ((partitionCached now cache mints).2 =
      mints.filter (fun m => (freshCached now cache m).isNone)) ∧
    ((getPrices env now mints cache).2.2 =
      if (partitionCached now cache mints).2.isEmpty then []
      else [PQuery.jup (partitionCached now cache mints).2]) ∧
    (∀ m c, m ∈ mints → freshCached now cache m = some c →
      jsMapGet (getPrices env now mints cache).1 m = some c) ∧
    (∀ m p,
      (m, p) ∈ getJupiterPrices env now (partitionCached now cache mints).2 →
      jsMapGet (getPrices env now mints cache).1 m = some p ∧
      jsMapGet (getPrices env now mints cache).2.1 m = some p) ∧
    (∀ m, freshCached now cache m = none →
      (∀ p, (m, p) ∉ getJupiterPrices env now (partitionCached now cache mints).2) →
      jsMapGet (getPrices env now mints cache).1 m = none) := by
  refine ⟨partitionCached_snd now cache mints, ?_, ?_, ?_, ?_⟩
  · cases hempty : (partitionCached now cache mints).2.isEmpty with
    | true =>
      rw [getPrices_eq_pos env now mints cache hempty]
      rfl
    | false =>
      rw [getPrices_eq_neg env now mints cache hempty]
      rfl
  · intro m c hm hf
    have hnofetch : ∀ e ∈ getJupiterPrices env now (partitionCached now cache mints).2,
        e.1 ≠ m := by
      rintro ⟨em, ep⟩ hmem rfl
      have hk := getJupiterPrices_mem_keys env now _ _ _ hmem
      rw [partitionCached_snd] at hk
      rw [List.mem_filter] at hk
      rw [hf] at hk
      simp at hk
    cases hempty : (partitionCached now cache mints).2.isEmpty with
    | true =>
      rw [getPrices_eq_pos env now mints cache hempty]
      dsimp only
      rw [partitionCached_fst_get, if_pos hm, hf]
    | false =>
      rw [getPrices_eq_neg env now mints cache hempty]
      dsimp only
      rw [jsMapGet_setAll_not_mem _ _ _ hnofetch]
      rw [partitionCached_fst_get, if_pos hm, hf]
  · intro m p hmem
    have huniq : ∀ e ∈ getJupiterPrices env now (partitionCached now cache mints).2,
        e.1 = m → e.2 = p := by
      rintro ⟨em, ep⟩ hmem2 h
      subst h
      exact getJupiterPrices_value_unique env now _ _ _ _ hmem2 hmem
    have hkey : m ∈ (partitionCached now cache mints).2 :=
      getJupiterPrices_mem_keys env now _ _ _ hmem
    have hempty : (partitionCached now cache mints).2.isEmpty = false := by
      cases h : (partitionCached now cache mints).2 with
      | nil => rw [h] at hkey; cases hkey
      | cons a t => rfl
    rw [getPrices_eq_neg env now mints cache hempty]
    dsimp only
    exact ⟨jsMapGet_setAll_mem _ _ _ _ hmem huniq,
      jsMapGet_setAll_mem _ _ _ _ hmem huniq⟩
  · intro m hf hnores
    have hnofetch : ∀ e ∈ getJupiterPrices env now (partitionCached now cache mints).2,
        e.1 ≠ m := by
      rintro ⟨em, ep⟩ hmem rfl
      exact hnores ep hmem
    cases hempty : (partitionCached now cache mints).2.isEmpty with
    | true =>
      rw [getPrices_eq_pos env now mints cache hempty]
      dsimp only
      rw [partitionCached_fst_get]
      split <;> simp [hf]
    | false =>
      rw [getPrices_eq_neg env now mints cache hempty]
      dsimp only
      rw [jsMapGet_setAll_not_mem _ _ _ hnofetch]
      rw [partitionCached_fst_get]
      split <;> simp [hf]

/-- Witness data for C8: `"A"` cached fresh at time 0, `"B"` uncached; the
batch response resolves `"B"` to price 7. -/
def eA : PriceData :=
  ⟨"A", "UNKNOWN", JsNum.val 5, JsNum.val 0, JsNum.val 0, JsNum.val 0,
    JsNum.val 1, 0, PriceSource.jupiter⟩

def eB : PriceData :=
  ⟨"B", "UNKNOWN", JsNum.val 7, JsNum.val 0, JsNum.val 0, JsNum.val 0,
    JsNum.val 1, 1000, PriceSource.jupiter⟩

def envC8 : PriceEnv :=
  ⟨Except.error (), fun _ => Except.ok (fun m =>
    if m = "B" then some (JsNum.val 7) else none)⟩

/-- Witness for C8: with `A` fresh and `B` uncached, exactly one batch call
scoped to `["B"]` is made, `A` is served from cache, and `B`'s fetched entry
appears in the result and the cache. -/
theorem getPrices_batching_witness :
    ((getPrices envC8 1000 ["A", "B"] [("A", eA)]).2.2 = [PQuery.jup ["B"]]) ∧
    (jsMapGet (getPrices envC8 1000 ["A", "B"] [("A", eA)]).1 "A" = some eA) ∧
    (jsMapGet (getPrices envC8 1000 ["A", "B"] [("A", eA)]).1 "B" = some eB) ∧
    (jsMapGet (getPrices envC8 1000 ["A", "B"] [("A", eA)]).2.1 "B" = some eB) := by
  have hmem : ("B", eB) ∈ getJupiterPrices envC8 1000
      (partitionCached 1000 [("A", eA)] ["A", "B"]).2 := by
    rw [show getJupiterPrices envC8 1000
      (partitionCached 1000 [("A", eA)] ["A", "B"]).2 = [("B", eB)] from rfl]
    exact List.mem_singleton.mpr rfl
  refine ⟨?_, ?_, ?_, ?_⟩
  · rw [(getPrices_batching envC8 1000 ["A", "B"] [("A", eA)]).2.1]
    rfl
  · exact (getPrices_batching envC8 1000 ["A", "B"] [("A", eA)]).2.2.1
      "A" eA (by decide) rfl
  · exact ((getPrices_batching envC8 1000 ["A", "B"] [("A", eA)]).2.2.2.1
      "B" eB hmem).1
  · exact ((getPrices_batching envC8 1000 ["A", "B"] [("A", eA)]).2.2.2.1
      "B" eB hmem).2

end PriceService

/-! ## TokenService.getTokenPrices (`src/src/services/tokenService.ts`)

Single Jupiter batch source with a 5-minute cache; on a thrown fetch error it
degrades to cached entries younger than twice the expiry window. -/

namespace TokenService

structure TokenPrice where
  mint : String
  price : JsNum
  priceChange24h : JsNum
  volume24h : JsNum
  marketCap : JsNum
  lastUpdated : Int
deriving DecidableEq, Repr

structure TokenEnv where
  fetch : List String → Except Unit (String → Option JsNum)

def cacheExpiry : Int := 300000

def tsFreshCached (now : Int) (cache : List (String × TokenPrice)) (m : String) :
    Option TokenPrice :=
  match jsMapGet cache m with
  | some c => if now - c.lastUpdated < cacheExpiry then some c else none
  | none => none

/-- The cache-check filter of `getTokenPrices`: fresh entries and uncached
mints, both in input order. -/
def tsPartition (now : Int) (cache : List (String × TokenPrice)) :
    List String → List (String × TokenPrice) × List String
  | [] => ([], [])
  | m :: ms =>
    let r := tsPartition now cache ms
    match tsFreshCached now cache m with
    | some c => ((m, c) :: r.1, r.2)
    | none => (r.1, m :: r.2)

def tsSetAll (cache entries : List (String × TokenPrice)) :
    List (String × TokenPrice) :=
  entries.foldl (fun c e => jsMapSet c e.1 e.2) cache

/-- `getTokenPrices`: serve fresh cache entries; if any mints are uncached,
one batch fetch; on success merge the response entries into result and
cache; if the fetch throws, discard the partial result and return every
requested mint's cached entry younger than `cacheExpiry * 2`, leaving the
cache unchanged. -/
def getTokenPrices (env : TokenEnv) (now : Int) (mints : List String)
    (cache : List (String × TokenPrice)) :
    List (String × TokenPrice) × List (String × TokenPrice) :=
  let part := tsPartition now cache mints
  if part.2.isEmpty then (part.1, cache)
  else
    match env.fetch part.2 with
    | Except.ok data =>
      let fetched := part.2.filterMap (fun m => (data m).map (fun p =>
        (m, (⟨m, p, JsNum.val 0, JsNum.val 0, JsNum.val 0, now⟩ : TokenPrice))))
      (tsSetAll part.1 fetched, tsSetAll cache fetched)
    | Except.error _ =>
      (mints.filterMap (fun m =>
        match jsMapGet cache m with
        | some c => if now - c.lastUpdated < cacheExpiry * 2 then some (m, c) else none
        | none => none), cache)

end TokenService

/-! ### C7: degradation on price-fetch failure -/

/-- Environment in which Pyth and Jupiter both fail. -/
def envFail : PriceService.PriceEnv := ⟨Except.error (), fun _ => Except.error ()⟩

/-- A cache entry fetched at time 0: at `now = 45000` it is older than the
30 s expiry but younger than the 60 s (2×) tolerance. -/
def eStale : PriceService.PriceData :=
  ⟨"X", "UNKNOWN", JsNum.val 100, JsNum.val 0, JsNum.val 0, JsNum.val 0,
    JsNum.val 1, 0, PriceService.PriceSource.jupiter⟩

/-- C7 counterexample: with both sources failing and a cached entry whose
age (45 s) is within 2× the expiry window, `PriceService.getPrice` returns
`null` instead of the stale entry: it has no stale-cache fallback. -/
theorem getPrice_stale_claim_false :
    jsMapGet [("X", eStale)] "X" = some eStale ∧
    ¬ (45000 - eStale.lastUpdated < PriceService.cacheExpiry) ∧
    (45000 - eStale.lastUpdated < 2 * PriceService.cacheExpiry) ∧
    (PriceService.getPrice envFail true 45000 "X" [("X", eStale)]).1 = none ∧
    (PriceService.getPrice envFail true 45000 "X" [("X", eStale)]).1 ≠ some eStale := by
  refine ⟨rfl, by decide, by decide, rfl, ?_⟩
  intro h
  rw [show (PriceService.getPrice envFail true 45000 "X" [("X", eStale)]).1 = none
    from rfl] at h
  exact Option.noConfusion h

/-- C7 (amended): on a fetch failure `PriceService.getPrice` degrades to the
next source and then to `null`, never consulting stale cache entries (first
conjunct: both sources failing on a miss gives `null` even when a stale
entry exists, with one query per consulted source and no exception).  The
2×-expiry stale-cache fallback exists only in `TokenService.getTokenPrices`:
when its single batch fetch throws, it returns exactly the requested mints'
cache entries younger than `cacheExpiry * 2` and leaves the cache unchanged
(second conjunct). -/
theorem price_fetch_failure_degradation :
    (∀ env isInit now mint cache e,
      jsMapGet cache mint = some e →
      ¬ (now - e.lastUpdated < PriceService.cacheExpiry) →
      PriceService.getPythPrice env isInit now mint = none →
      PriceService.getJupiterPrice env now mint = none →
      PriceService.getPrice env isInit now mint cache =
        (none, cache,
          PriceService.pythQueries isInit mint ++ [PriceService.PQuery.jup [mint]])) ∧
    (∀ env now mints cache,
      (TokenService.tsPartition now cache mints).2.isEmpty = false →
      env.fetch (TokenService.tsPartition now cache mints).2 = Except.error () →
      (TokenService.getTokenPrices env now mints cache).2 = cache ∧
      ∀ m c, ((m, c) ∈ (TokenService.getTokenPrices env now mints cache).1 ↔
        (m ∈ mints ∧ jsMapGet cache m = some c ∧
          now - c.lastUpdated < TokenService.cacheExpiry * 2))) := by
  constructor
  · intro env isInit now mint cache e hget hstale hpyth hjup
    have hmiss : PriceService.freshCached now cache mint = none := by
      simp [PriceService.freshCached, hget, hstale]
    simp [PriceService.getPrice, hmiss, hpyth, hjup]
  · intro env now mints cache hne herr
    constructor
    · simp [TokenService.getTokenPrices, hne, herr]
    · intro m c
      simp only [TokenService.getTokenPrices, hne, Bool.false_eq_true,
        if_false, herr]
      rw [List.mem_filterMap]
      constructor
      · rintro ⟨a, ha, hfa⟩
        cases hga : jsMapGet cache a with
        | none => rw [hga] at hfa; simp at hfa
        | some c0 =>
          rw [hga] at hfa
          dsimp only at hfa
          by_cases h2 : now - c0.lastUpdated < TokenService.cacheExpiry * 2
          · rw [if_pos h2] at hfa
            rw [Option.some_inj, Prod.mk.injEq] at hfa
            obtain ⟨rfl, rfl⟩ := hfa
            exact ⟨ha, hga, h2⟩
          · rw [if_neg h2] at hfa
            simp at hfa
      · rintro ⟨hm, hg, h2⟩
        refine ⟨m, hm, ?_⟩
        rw [hg]
        simp [h2]

/-- A token-service cache entry fetched at time 0: at `now = 400000` it is
older than the 5-minute expiry but younger than the 10-minute tolerance. -/
def tStale : TokenService.TokenPrice :=
  ⟨"Y", JsNum.val 50, JsNum.val 0, JsNum.val 0, JsNum.val 0, 0⟩

/-- Token-service environment whose batch fetch always throws. -/
def envTFail : TokenService.TokenEnv := ⟨fun _ => Except.error ()⟩

/-- Witness for C7's amended theorem: `getPrice` with both sources failing
and a 45 s old entry returns `null`; `getTokenPrices` with a throwing fetch
serves the 400 s old entry from cache. -/
theorem price_fetch_failure_degradation_witness :
    (PriceService.getPrice envFail true 45000 "X" [("X", eStale)] =
      (none, [("X", eStale)],
        PriceService.pythQueries true "X" ++ [PriceService.PQuery.jup ["X"]])) ∧
    ("Y", tStale) ∈ (TokenService.getTokenPrices envTFail 400000 ["Y"]
      [("Y", tStale)]).1 :=
  ⟨price_fetch_failure_degradation.1 envFail true 45000 "X" [("X", eStale)]
      eStale rfl (by decide) rfl rfl,
   ((price_fetch_failure_degradation.2 envTFail 400000 ["Y"] [("Y", tStale)]
      rfl rfl).2 "Y" tStale).mpr ⟨by decide, rfl, by decide⟩⟩

/-! ### C10: price validation at the cache boundary -/

/-- Environment whose Jupiter response price field fails to parse for `"X"`
(`parseFloat` gives NaN); Pyth fails. -/
def envNaN : PriceService.PriceEnv :=
  ⟨Except.error (), fun _ => Except.ok (fun m =>
    if m = "X" then some JsNum.nan else none)⟩

/-- The entry `getJupiterPrice` builds from that response. -/
def eNaN : PriceService.PriceData :=
  ⟨"X", "UNKNOWN", JsNum.nan, JsNum.val 0, JsNum.val 0, JsNum.val 0,
    JsNum.val 1, 0, PriceService.PriceSource.jupiter⟩

/-- C10 counterexample: after one `getPrice` call against a Jupiter response
whose price does not parse to a finite number, the cache holds — and `get`
returns — an entry whose price is NaN: non-finite prices are not rejected at
the boundary. -/
theorem cache_price_finite_claim_false :
    jsMapGet (PriceService.getPrice envNaN true 0 "X" []).2.1 "X" = some eNaN ∧
    eNaN.price.isFinite = false :=
  ⟨rfl, rfl⟩

/-- C10 (amended): `validatePrice` does reject exactly the non-finite or
negative prices (first conjunct), but the price path never invokes it:
`getJupiterPrice` builds its entry directly from the parsed response price,
whatever it is (second conjunct), so a non-finite price can enter the cache
and be returned by a lookup (third conjunct, the counterexample state). -/
theorem validatePrice_not_applied_to_cache :
    (∀ p, (∃ q, validatePrice p = Except.ok q) ↔
      (p.isFinite = true ∧ p.nonneg = true)) ∧
    (∀ env now mint data p,
      env.jupiter [mint] = Except.ok data →
      data mint = some p →
      ∃ j, PriceService.getJupiterPrice env now mint = some j ∧ j.price = p) ∧
    (jsMapGet (PriceService.getPrice envNaN true 0 "X" []).2.1 "X" = some eNaN ∧
      eNaN.price.isFinite = false) := by
  refine ⟨?_, ?_, rfl, rfl⟩
  · intro p
    cases p with
    | nan => simp [validatePrice, JsNum.isFinite, JsNum.nonneg]
    | val q =>
      by_cases hq : q < 0
      · simp [validatePrice, hq, JsNum.isFinite, JsNum.nonneg, not_le.mpr hq]
      · simp [validatePrice, hq, JsNum.isFinite, JsNum.nonneg, not_lt.mp hq]
  · intro env now mint data p h1 h2
    refine ⟨⟨mint, (PriceService.TOKEN_PYTH_MAPPING mint).getD "UNKNOWN", p,
      JsNum.val 0, JsNum.val 0, JsNum.val 0, JsNum.val 1, now,
      PriceService.PriceSource.jupiter⟩, ?_, rfl⟩
    simp [PriceService.getJupiterPrice, h1, h2]

/-- Witness for C10's amended theorem at the NaN environment. -/
theorem validatePrice_not_applied_to_cache_witness :
    ∃ j, PriceService.getJupiterPrice envNaN 0 "X" = some j ∧
      j.price = JsNum.nan :=
  validatePrice_not_applied_to_cache.2.1 envNaN 0 "X"
    (fun m => if m = "X" then some JsNum.nan else none) JsNum.nan rfl rfl

/-! ## Price polling subscriptions (`PriceService.subscribe`)

Further association-list facts needed for the timer invariant. -/

theorem jsMapGet_eq_none {β : Type} (m : List (String × β)) (k : String)
    (h : k ∉ m.map Prod.fst) : jsMapGet m k = none := by
  induction m with
  | nil => rfl
  | cons hd t ih =>
    obtain ⟨k0, v0⟩ := hd
    simp only [List.map_cons, List.mem_cons] at h
    push_neg at h
    simp only [jsMapGet]
    rw [if_neg (fun he => h.1 he.symm)]
    exact ih h.2

theorem jsMapDelete_keys_sublist {β : Type} (m : List (String × β)) (k : String) :
    ((jsMapDelete m k).map Prod.fst).Sublist (m.map Prod.fst) := by
  induction m with
  | nil => simp [jsMapDelete]
  | cons hd t ih =>
    obtain ⟨k0, v0⟩ := hd
    simp only [jsMapDelete]
    by_cases hk : k0 = k
    · rw [if_pos hk]
      exact List.sublist_cons_self _ _
    · rw [if_neg hk]
      simp only [List.map_cons]
      exact List.Sublist.cons₂ _ ih

theorem jsMapGet_delete_self {β : Type} (m : List (String × β)) (k : String)
    (h : (m.map Prod.fst).Nodup) : jsMapGet (jsMapDelete m k) k = none := by
  induction m with
  | nil => rfl
  | cons hd t ih =>
    obtain ⟨k0, v0⟩ := hd
    simp only [List.map_cons, List.nodup_cons] at h
    simp only [jsMapDelete]
    by_cases hk : k0 = k
    · rw [if_pos hk]
      subst hk
      exact jsMapGet_eq_none t k0 h.1
    · rw [if_neg hk]
      simp only [jsMapGet]
      rw [if_neg hk]
      exact ih h.2

theorem jsMapGet_delete_ne {β : Type} (m : List (String × β)) (k k' : String)
    (h : k ≠ k') : jsMapGet (jsMapDelete m k) k' = jsMapGet m k' := by
  induction m with
  | nil => rfl
  | cons hd t ih =>
    obtain ⟨k0, v0⟩ := hd
    simp only [jsMapDelete, jsMapGet]
    by_cases hk : k0 = k
    · rw [if_pos hk]
      subst hk
      rw [if_neg h]
    · rw [if_neg hk]
      simp only [jsMapGet]
      by_cases hk' : k0 = k'
      · rw [if_pos hk', if_pos hk']
      · rw [if_neg hk', if_neg hk']
        exact ih

theorem mem_keys_set {β : Type} (m : List (String × β)) (k : String) (v : β)
    (a : String) :
    a ∈ (jsMapSet m k v).map Prod.fst ↔ (a ∈ m.map Prod.fst ∨ a = k) := by
  induction m with
  | nil => simp [jsMapSet]
  | cons hd t ih =>
    obtain ⟨k0, v0⟩ := hd
    by_cases hk : k0 = k
    · subst hk
      rw [show jsMapSet ((k0, v0) :: t) k0 v = (k0, v) :: t from by simp [jsMapSet]]
      simp only [List.map_cons, List.mem_cons]
      tauto
    · rw [show jsMapSet ((k0, v0) :: t) k v = (k0, v0) :: jsMapSet t k v from by
        simp [jsMapSet, hk]]
      simp only [List.map_cons, List.mem_cons, ih]
      tauto

theorem keys_nodup_set {β : Type} (m : List (String × β)) (k : String) (v : β)
    (h : (m.map Prod.fst).Nodup) :
    ((jsMapSet m k v).map Prod.fst).Nodup := by
  induction m with
  | nil => simp [jsMapSet]
  | cons hd t ih =>
    obtain ⟨k0, v0⟩ := hd
    simp only [List.map_cons, List.nodup_cons] at h
    by_cases hk : k0 = k
    · subst hk
      rw [show jsMapSet ((k0, v0) :: t) k0 v = (k0, v) :: t from by simp [jsMapSet]]
      simp only [List.map_cons, List.nodup_cons]
      exact ⟨h.1, h.2⟩
    · rw [show jsMapSet ((k0, v0) :: t) k v = (k0, v0) :: jsMapSet t k v from by
        simp [jsMapSet, hk]]
      simp only [List.map_cons, List.nodup_cons]
      refine ⟨?_, ih h.2⟩
      rw [mem_keys_set]
      rintro (hmem | rfl)
      · exact h.1 hmem
      · exact hk rfl

namespace PriceService

/-- State of the polling-subscription machinery of `PriceService.subscribe`:
per-mint subscriber lists (`subscriptions`), the mints with an active
polling timer (`updateIntervals`), and a source of fresh subscription
identities (each `subscribe` call creates a distinct subscription object;
identity is what `indexOf` compares in `unsubscribe`). -/
structure PSState where
  subs : List (String × List Nat)
  timers : List String
  nextId : Nat
deriving DecidableEq, Repr

/-- `subscribe(mint, callback, interval)`: append a new subscription object
to the mint's list (creating it if absent), start a polling timer if the
mint has none, and return the unsubscribe handle (mint and subscription
identity). -/
def psSubscribe (st : PSState) (mint : String) : PSState × (String × Nat) :=
  let id := st.nextId
  let arr := (jsMapGet st.subs mint).getD []
  ({ subs := jsMapSet st.subs mint (arr ++ [id])
     timers := if mint ∈ st.timers then st.timers else st.timers ++ [mint]
     nextId := id + 1 }, (mint, id))

/-- The returned unsubscribe closure: splice the subscription out of the
mint's list if present; if the list is then empty, clear and drop the timer
and delete the subscription entry. -/
def psUnsubscribe (st : PSState) (h : String × Nat) : PSState :=
  let arr := (jsMapGet st.subs h.1).getD []
  let arr2 := arr.erase h.2
  if arr2.isEmpty then
    { subs := jsMapDelete st.subs h.1
      timers := st.timers.erase h.1
      nextId := st.nextId }
  else
    { subs := jsMapSet st.subs h.1 arr2
      timers := st.timers
      nextId := st.nextId }

/-- One timer tick for `mint`: when `getPrice` resolves, every currently
registered callback for the mint is invoked (returned by identity); a `null`
tick invokes none. -/
def psTick (st : PSState) (mint : String) (resolved : Bool) : List Nat :=
  if resolved then (jsMapGet st.subs mint).getD [] else []

/-- States reachable from a fresh service by any sequence of subscribe and
unsubscribe calls (unsubscribe with an arbitrary handle, covering repeated
invocations of the same closure). -/
inductive PSReach : PSState → Prop where
  | init : PSReach ⟨[], [], 0⟩
  | subscribeStep (st : PSState) (mint : String) :
      PSReach st → PSReach (psSubscribe st mint).1
  | unsubscribeStep (st : PSState) (h : String × Nat) :
      PSReach st → PSReach (psUnsubscribe st h)

/-- Structural invariant: subscription keys and timers are duplicate-free,
and a mint has a timer exactly when it has a non-empty subscriber list. -/
def psInv (st : PSState) : Prop :=
  (st.subs.map Prod.fst).Nodup ∧
  st.timers.Nodup ∧
  (∀ mint, mint ∈ st.timers ↔ ((jsMapGet st.subs mint).getD []) ≠ [])

theorem psInv_subscribe (st : PSState) (mint : String) (h : psInv st) :
    psInv (psSubscribe st mint).1 := by
  obtain ⟨hkeys, htimers, hiff⟩ := h
  refine ⟨keys_nodup_set _ _ _ hkeys, ?_, ?_⟩
  · dsimp [psSubscribe]
    by_cases hc : mint ∈ st.timers
    · rw [if_pos hc]; exact htimers
    · rw [if_neg hc]
      exact List.Nodup.append htimers (List.nodup_singleton mint)
        (fun a ha hb => hc ((List.mem_singleton.mp hb) ▸ ha))
  · intro m
    dsimp [psSubscribe]
    by_cases hm : m = mint
    · subst hm
      rw [jsMapGet_set_self]
      simp only [Option.getD_some]
      constructor
      · intro _
        simp
      · intro _
        by_cases hc : m ∈ st.timers
        · rw [if_pos hc]; exact hc
        · rw [if_neg hc]
          exact List.mem_append_right _ (List.mem_singleton.mpr rfl)
    · rw [jsMapGet_set_ne _ _ _ _ (fun he => hm he.symm)]
      have ht : (m ∈ (if mint ∈ st.timers then st.timers
          else st.timers ++ [mint])) ↔ m ∈ st.timers := by
        by_cases hc : mint ∈ st.timers
        · rw [if_pos hc]
        · rw [if_neg hc]
          constructor
          · intro hma
            rcases List.mem_append.mp hma with hx | hx
            · exact hx
            · exact absurd (List.mem_singleton.mp hx) hm
          · exact fun hx => List.mem_append_left _ hx
      rw [ht]
      exact hiff m

theorem psInv_unsubscribe (st : PSState) (h : String × Nat) (hinv : psInv st) :
    psInv (psUnsubscribe st h) := by
  obtain ⟨hkeys, htimers, hiff⟩ := hinv
  obtain ⟨mint, id⟩ := h
  dsimp only [psUnsubscribe]
  by_cases he : (((jsMapGet st.subs mint).getD []).erase id).isEmpty
  · rw [if_pos he]
    refine ⟨(jsMapDelete_keys_sublist _ _).nodup hkeys, htimers.erase _, ?_⟩
    intro m
    by_cases hm : m = mint
    · subst hm
      rw [jsMapGet_delete_self _ _ hkeys]
      simp only [Option.getD_none]
      constructor
      · intro hmem
        exact absurd hmem (htimers.not_mem_erase)
      · intro hc
        exact absurd rfl hc
    · rw [jsMapGet_delete_ne _ _ _ (fun hh => hm hh.symm)]
      rw [List.mem_erase_of_ne hm]
      exact hiff m
  · rw [if_neg he]
    refine ⟨keys_nodup_set _ _ _ hkeys, htimers, ?_⟩
    intro m
    by_cases hm : m = mint
    · subst hm
      rw [jsMapGet_set_self]
      simp only [Option.getD_some]
      constructor
      · intro _
        intro hc
        exact he (by rw [hc]; rfl)
      · intro _
        apply (hiff m).mpr
        intro harr
        apply he
        rw [harr]
        rfl
    · rw [jsMapGet_set_ne _ _ _ _ (fun hh => hm hh.symm)]
      exact hiff m

theorem psInv_reach (st : PSState) (h : PSReach st) : psInv st := by
  induction h with
  | init =>
    refine ⟨List.nodup_nil, List.nodup_nil, ?_⟩
    intro mint
    simp [jsMapGet]
  | subscribeStep st mint _ ih => exact psInv_subscribe st mint ih
  | unsubscribeStep st hh _ ih => exact psInv_unsubscribe st hh ih

/-- C9: in every reachable state, each mint has exactly one polling timer if
it has at least one subscriber and none otherwise (first conjunct); and in
the concrete two-subscriber scenario: two `subscribe("A")` calls share one
timer, unsubscribing the first leaves the timer running and the second
callback still invoked on a resolving tick, and unsubscribing the second
stops and removes the timer and the subscription entry. -/
theorem subscription_timer_sharing :
    (∀ st, PSReach st → ∀ mint,
      st.timers.count mint =
        if ((jsMapGet st.subs mint).getD []) = [] then 0 else 1) ∧
    ((psSubscribe (psSubscribe ⟨[], [], 0⟩ "A").1 "A").1.timers.count "A" = 1 ∧
     (psUnsubscribe (psSubscribe (psSubscribe ⟨[], [], 0⟩ "A").1 "A").1
        ("A", 0)).timers.count "A" = 1 ∧
     psTick (psUnsubscribe (psSubscribe (psSubscribe ⟨[], [], 0⟩ "A").1 "A").1
        ("A", 0)) "A" true = [1] ∧
     (psUnsubscribe (psUnsubscribe
        (psSubscribe (psSubscribe ⟨[], [], 0⟩ "A").1 "A").1 ("A", 0))
        ("A", 1)).timers = [] ∧
     (psUnsubscribe (psUnsubscribe
        (psSubscribe (psSubscribe ⟨[], [], 0⟩ "A").1 "A").1 ("A", 0))
        ("A", 1)).subs = []) := by
  constructor
  · intro st hreach mint
    obtain ⟨_, htimers, hiff⟩ := psInv_reach st hreach
    by_cases hc : ((jsMapGet st.subs mint).getD []) = []
    · rw [if_pos hc]
      rw [List.count_eq_zero]
      intro hmem
      exact (hiff mint).mp hmem hc
    · rw [if_neg hc]
      exact List.count_eq_one_of_mem htimers ((hiff mint).mpr hc)
  · decide

/-- Witness for C9's invariant at a reachable one-subscriber state. -/
theorem subscription_timer_sharing_witness :
    (psSubscribe (⟨[], [], 0⟩ : PSState) "A").1.timers.count "A" = 1 := by
  rw [subscription_timer_sharing.1 (psSubscribe ⟨[], [], 0⟩ "A").1
    (PSReach.subscribeStep _ "A" PSReach.init) "A"]
  rfl

end PriceService

end DLMM
